import Mathlib

/-!
Verification of the pool discovery, reconciliation and quote-estimation
engine of a Stacks AMM frontend.

Shallow embedding conventions:
* All chain quantities (reserves, base units, fees in basis points,
  liquidity) are non-negative integers handled as JavaScript `BigInt` or
  integral `Number` in the source; they are modelled as `Nat`.  `BigInt`
  division truncates toward zero, which on non-negative operands is exactly
  `Nat` division.
* JavaScript numbers passed through `Number.prototype.toString` are modelled
  by their positional decimal representation (`DecRep` below: integer part
  plus the list of fractional digits); non-finite and negative numbers are
  separate constructors of `JSNumber`.
* External reads (the Hiro event log endpoint and the read-only contract
  calls) are modelled as pure oracles: an `Env` record of functions, a list
  of raw log events, and a transport-failure predicate on page offsets.
  Thrown exceptions inside `try`/`catch` blocks are modelled by `Option`
  results (`none` = the block failed), matching how every call site of the
  source discards the exception value.
-/

namespace Dex

/-! ## Quote engine: `estimateSwapOutput` (Swap component, `estimateSwapOutput`) -/

/-- Pre-fee swap output.  Mirrors the two symmetric branches of the source:
`output = y - k / (x + dx)` when the input is token-0 (`zeroForOne`), and
`output = x - k / (y + dy)` otherwise, with `k = x * y` and floor division. -/
def swapRawOutput (x y : Nat) (zeroForOne : Bool) (delta : Nat) : Nat :=
  if zeroForOne then y - x * y / (x + delta) else x - x * y / (y + delta)

/-- Fee application of the source: `fees = (output * fee) / 10000`,
`outputAfterFees = output - fees`, returning `outputAfterFees` when positive
and `0` otherwise. -/
def applyFeeQuote (output fee : Nat) : Nat :=
  let fees := output * fee / 10000
  let outputAfterFees := output - fees
  if 0 < outputAfterFees then outputAfterFees else 0

/-- The swap quote estimator.  Mirrors the source control flow: zero on empty
reserves, zero on a zero input amount, zero on a zero pre-fee output, and the
fee-adjusted output otherwise.  (The source's `xPlus <= 0n` guard is
unreachable for non-negative reserves and positive input and is dropped;
the `output <= 0n` guard maps to the `output = 0` test since the `BigInt`
output is never negative here.) -/
def estimateSwapOutput (x y : Nat) (zeroForOne : Bool) (delta fee : Nat) : Nat :=
  if x = 0 ∨ y = 0 then 0
  else if delta = 0 then 0
  else
    let output := swapRawOutput x y zeroForOne delta
    if output = 0 then 0 else applyFeeQuote output fee

/-! ## `toBaseUnits` (amm.ts lines 114-123) -/

/-- Positional decimal representation of a non-negative finite JS number:
integer part and the list of fractional digits (each `< 10`).  This is the
format `Number.prototype.toString` produces for zero and for amounts in
`[1e-6, 1e21)`; for other magnitudes `toString` emits exponential notation
(`"1.5e-7"`, `"1e+21"`), which this structure cannot represent — those
strings are handled by the string-level model `toBaseUnitsStr` below. -/
structure DecRep where
  intPart : Nat
  frac : List Nat
deriving DecidableEq

/-- A JavaScript number as seen by the guards of `toBaseUnits`:
non-finite (`NaN`, `±Infinity`), strictly negative finite, or non-negative
finite with its decimal representation. -/
inductive JSNumber where
  | nonFinite : JSNumber
  | neg : DecRep → JSNumber
  | nonneg : DecRep → JSNumber
deriving DecidableEq

/-- Value of a digit string, as computed by `BigInt` on a string of decimal
digits. -/
def digitsToNat (ds : List Nat) : Nat :=
  ds.foldl (fun a dig => a * 10 + dig) 0

/-- `String.prototype.padEnd(n, "0")` on a digit string. -/
def padEndZeros (ds : List Nat) (n : Nat) : List Nat :=
  ds ++ List.replicate (n - ds.length) 0

/-- The rational value represented by a `DecRep`. -/
def decValue (r : DecRep) : ℚ :=
  (r.intPart : ℚ) + (digitsToNat r.frac : ℚ) / 10 ^ r.frac.length

def amountErrMsg : String := "Invalid amount: must be a non-negative number"

def decimalsErrMsg : String := "Invalid token decimals"

/-- `toBaseUnits(amount, decimals)` over the positional `DecRep` idealization
of `amount.toString()`.  The `decimals` argument is a JS number checked with
`Number.isInteger` and `< 0`; it is modelled as a rational with the guard
`den ≠ 1 ∨ < 0`.  The accepted path splits the decimal representation at the
point, pads the fractional digits with zeros to `decimals` places, truncates
to `decimals` places, and returns `intPart * 10^decimals + fracDigits`.
This definition is only faithful to the source for amounts whose `toString`
output is positional; the faithful string-level computation, which also
covers the exponential-notation outputs, is `toBaseUnitsStr` below. -/
def toBaseUnits (amount : JSNumber) (decimals : ℚ) : Except String Nat :=
  match amount with
  | JSNumber.nonFinite => Except.error amountErrMsg
  | JSNumber.neg _ => Except.error amountErrMsg
  | JSNumber.nonneg r =>
    if decimals.den ≠ 1 ∨ decimals < 0 then Except.error decimalsErrMsg
    else
      let d := decimals.num.toNat
      let fracPart := (padEndZeros r.frac d).take d
      let base := 10 ^ d
      let intUnits := r.intPart * base
      let fracUnits := digitsToNat fracPart
      Except.ok (intUnits + fracUnits)

/-- Numeric value of an ASCII decimal digit character. -/
def digitVal (c : Char) : Nat := c.toNat - 48

/-- ASCII decimal digit test (code points 48–57), the digit class accepted
by `BigInt(string)`. -/
def isDecDigit (c : Char) : Bool := decide (48 ≤ c.toNat ∧ c.toNat ≤ 57)

def syntaxErrMsg : String := "Cannot convert string to a BigInt"

/-- `BigInt(string)` on the strings arising in `toBaseUnits`: a (possibly
empty) run of decimal digits parses to its value (`BigInt("")` is `0n`);
any other character — such as the `e`, `+`, `-` of an exponential
`toString` output — raises a `SyntaxError`. -/
def bigIntOfDigits (cs : List Char) : Except String Nat :=
  if cs.all isDecDigit then Except.ok (digitsToNat (cs.map digitVal))
  else Except.error syntaxErrMsg

/-- `String.prototype.split(sep)` on a character list. -/
def splitOnChar (sep : Char) : List Char → List (List Char)
  | [] => [[]]
  | c :: cs =>
    match splitOnChar sep cs with
    | [] => [[]]
    | part :: parts =>
      if c = sep then [] :: part :: parts else (c :: part) :: parts

/-- The computation of `toBaseUnits` after its guards, at the level of the
character string `amount.toString()` actually produces — including the
exponential notations emitted for amounts below `1e-6` or at `1e21` and
above, which `DecRep` cannot represent: destructure `split(".")` into the
first two parts, `padEnd(decimals, "0").slice(0, decimals)` on the
fractional part, then `BigInt(intPart || "0") * 10^decimals +
BigInt(fracPart || "0")`, evaluating the integer part's conversion first
(as the source does); a `SyntaxError` from either conversion is the
`error` case. -/
def toBaseUnitsStr (repr : List Char) (decimals : Nat) : Except String Nat :=
  let parts := splitOnChar '.' repr
  let intPart := parts.headD []
  let fracRaw := (parts.drop 1).headD []
  let fracPart :=
    (fracRaw ++ List.replicate (decimals - fracRaw.length) '0').take decimals
  let base := 10 ^ decimals
  do
    let intUnits ← bigIntOfDigits (if intPart.isEmpty then ['0'] else intPart)
    let fracUnits ← bigIntOfDigits (if fracPart.isEmpty then ['0'] else fracPart)
    Except.ok (intUnits * base + fracUnits)

/-! ## Token-pair canonicalization (amm.ts `getAllPools` / `createPool`) -/

/-- Lexicographic comparison of character lists: the semantics of the
JavaScript `<` operator on strings (code-unit-wise comparison, shorter
prefix first). -/
def charListLt : List Char → List Char → Bool
  | _, [] => false
  | [], _ :: _ => true
  | a :: as, b :: bs =>
    if a < b then true
    else if b < a then false
    else charListLt as bs

/-- JavaScript string comparison `a < b`. -/
def strLt (a b : String) : Bool := charListLt a.data b.data

/-- Canonical ordering of a token pair.  `enc` models
`cvToHex(principalCV(·))`; `none` models a thrown exception for an invalid
principal string, in which case the source's `catch` keeps the event order.
Swaps the pair when the first encoding is the larger string
(`t0Hex > t1Hex`, i.e. `t1Hex < t0Hex`). -/
def canonicalizePair (enc : String → Option String) (token0 token1 : String) :
    String × String :=
  match enc token0, enc token1 with
  | some t0Hex, some t1Hex =>
    if strLt t1Hex t0Hex then (token1, token0) else (token0, token1)
  | _, _ => (token0, token1)

/-! ## Pool data model and external-read oracles -/

/-- The frontend `Pool` record. -/
structure Pool where
  id : String
  token0 : String
  token1 : String
  fee : Nat
  liquidity : Nat
  balance0 : Nat
  balance1 : Nat
deriving DecidableEq

/-- Decoded `get-pool-data` tuple. -/
structure PoolData where
  liquidity : Nat
  balance0 : Nat
  balance1 : Nat
deriving DecidableEq

/-- Decoded `create-pool` event payload `data` tuple.  The reserve and
liquidity fields are optional, matching the `?? 0` fallbacks of the source. -/
structure PayloadData where
  token0 : String
  token1 : String
  fee : Nat
  balance0 : Option Nat
  balance1 : Option Nat
  liquidity : Option Nat
deriving DecidableEq

/-- Decoded contract-log value of one event (`hexToCV` + `cvToJSON`),
abstracted to the fields the scanner inspects.  `action`/`data` are `none`
when the corresponding field is missing or not of the expected shape. -/
structure Payload where
  isTuple : Bool
  action : Option String
  data : Option PayloadData
deriving DecidableEq

/-- One entry of the paginated contract event log.  `payload` is `none` when
decoding the hex value throws (the source catches and skips the entry). -/
structure RawEvent where
  eventType : String
  contractId : String
  topic : String
  payload : Option Payload
deriving DecidableEq

/-- Oracles for the external reads performed during discovery:
`enc` models `cvToHex(principalCV(·))`, `getPoolId` the `get-pool-id`
read-only call (after unwrapping result/optional layers down to a buffer,
`none` = miss or throw), `getPoolData` the `get-pool-data` call (`none` =
not a tuple or throw) and `poolExists` the `pool-exists` call (`false` =
does not exist or throw). -/
structure Env where
  enc : String → Option String
  getPoolId : String → String → Nat → Option String
  getPoolData : String → Option PoolData
  poolExists : String → String → Nat → Bool

def ammContractPrincipal : String :=
  "ST19JE8EPR84AJ8Z30B5ZB08WXTB6FC2SQHT4K9RM.amm-v2"

def smartContractLogType : String := "smart_contract_log"

def printTopic : String := "print"

def createPoolAction : String := "create-pool"

def hexPrefix : String := "0x"

def dashSep : String := "-"

def pipeSep : String := "|"

/-- Character class of the `/^[0-9a-fA-F]+$/` test. -/
def isHexDigitChar (c : Char) : Bool :=
  c.isDigit || ( 'a' ≤ c && c ≤ 'f') || ( 'A' ≤ c && c ≤ 'F')

/-- `isHexId` of the source: strip an optional `0x` prefix and require a
non-empty all-hex remainder.  Operates on the character list of the string
(`String.take`/`String.drop`/`String.all` walk the characters). -/
def isHexId (id : String) : Bool :=
  let cs := if id.data.take 2 = hexPrefix.data then id.data.drop 2 else id.data
  decide (0 < cs.length) && cs.all isHexDigitChar

/-- The dedup key of the source: `` `${token-0}|${token-1}|${fee}` ``. -/
def poolKeyStr (p : Pool) : String :=
  p.token0 ++ pipeSep ++ p.token1 ++ pipeSep ++ toString p.fee

/-- `looksFallback` of the merge step: synthetic (non-hex) id, or both
reserves zero. -/
def looksFallback (p : Pool) : Bool :=
  !(isHexId p.id) || (p.balance0 == 0 && p.balance1 == 0)

/-- JS `Map.prototype.set`: replaces the value in place when the key exists
(keeping insertion order), appends otherwise. -/
def mapSet (m : List (String × Pool)) (k : String) (v : Pool) :
    List (String × Pool) :=
  if m.any (fun kv => kv.1 == k) then
    m.map (fun kv => if kv.1 == k then (k, v) else kv)
  else m ++ [(k, v)]

/-- JS `Map.prototype.get`. -/
def mapGet (m : List (String × Pool)) (k : String) : Option Pool :=
  (m.find? (fun kv => kv.1 == k)).map (fun kv => kv.2)

/-- The `get-pool-id` / `get-pool-data` read chain shared by the event path,
`getAllPoolsDirect` and `resolvePoolByPair`: resolve the id, fetch the data,
build the record. -/
def buildAuthoritative (env : Env) (t0 t1 : String) (fee : Nat) : Option Pool :=
  (env.getPoolId t0 t1 fee).bind fun poolId =>
    (env.getPoolData poolId).map fun pd =>
      { id := poolId, token0 := t0, token1 := t1, fee := fee,
        liquidity := pd.liquidity, balance0 := pd.balance0,
        balance1 := pd.balance1 }

/-- `resolvePoolByPair`: canonicalize the pair (a thrown encoding error makes
the whole block return `null`), then run the read chain. -/
def resolvePoolByPair (env : Env) (t0In t1In : String) (fee : Nat) :
    Option Pool :=
  match env.enc t0In, env.enc t1In with
  | some t0Hex, some t1Hex =>
    if strLt t1Hex t0Hex then buildAuthoritative env t1In t0In fee
    else buildAuthoritative env t0In t1In fee
  | _, _ => none

/-- The event-filter of the scanner: contract-log entries of the AMM contract
with the print topic. -/
def eventFilter (ev : RawEvent) : Bool :=
  ev.eventType == smartContractLogType &&
  ev.contractId == ammContractPrincipal && ev.topic == printTopic

/-- The fallback candidate built from the event payload alone, with the
synthetic id `` `${canon0}-${canon1}-${fee}` `` and reserves copied from the
payload (swapped when canonicalization reversed the pair). -/
def fallbackPool (d : PayloadData) (canon0 canon1 : String) : Pool :=
  let b0 := d.balance0.getD 0
  let b1 := d.balance1.getD 0
  let balances := if canon0 == d.token0 then (b0, b1) else (b1, b0)
  { id := canon0 ++ dashSep ++ canon1 ++ dashSep ++ toString d.fee,
    token0 := canon0, token1 := canon1, fee := d.fee,
    liquidity := d.liquidity.getD 0,
    balance0 := balances.1, balance1 := balances.2 }

/-- The record built for one decoded `create-pool` payload: the
authoritative read chain when it succeeds, otherwise one direct resolution
attempt, otherwise the event-payload fallback. -/
def processCreate (env : Env) (d : PayloadData) : Pool :=
  (((buildAuthoritative env
      (canonicalizePair env.enc d.token0 d.token1).1
      (canonicalizePair env.enc d.token0 d.token1).2 d.fee).orElse fun _ =>
    resolvePoolByPair env
      (canonicalizePair env.enc d.token0 d.token1).1
      (canonicalizePair env.enc d.token0 d.token1).2 d.fee).getD
    (fallbackPool d
      (canonicalizePair env.enc d.token0 d.token1).1
      (canonicalizePair env.enc d.token0 d.token1).2))

/-- Processing of one raw event inside the scan loop: filter, decode guards,
canonicalize, attempt the authoritative read chain, fall back to the event
payload (attempting one direct resolution first).  `none` = the entry was
skipped. -/
def processEvent (env : Env) (ev : RawEvent) : Option Pool :=
  if eventFilter ev then
    match ev.payload with
    | none => none
    | some p =>
      if p.isTuple then
        match p.action with
        | some a =>
          if a == createPoolAction then
            match p.data with
            | some d => some (processCreate env d)
            | none => none
          else none
        | none => none
      else none
  else none

/-! ## Event scanner pagination (amm.ts lines 140-162, 308-314) -/

/-- The pagination loop: fetch the window of 50 entries at `offset`
(`(log.drop offset).take 50` over the full log), stop on transport failure
or on a short page, otherwise advance the offset by 50.  Returns the
accumulated entries and the number of page requests issued. -/
def scanCollect (log : List RawEvent) (tfail : Nat → Bool) (offset : Nat) :
    List RawEvent × Nat :=
  if tfail offset then ([], 1)
  else
    if h50 : ((log.drop offset).take 50).length < 50 then
      ((log.drop offset).take 50, 1)
    else
      let r := scanCollect log tfail (offset + 50)
      ((log.drop offset).take 50 ++ r.1, r.2 + 1)
termination_by log.length - offset
decreasing_by
  simp only [List.length_take, List.length_drop] at h50
  omega

/-! ## Direct fallback discovery (`getAllPoolsDirect`) -/

def mockToken : String := "ST19JE8EPR84AJ8Z30B5ZB08WXTB6FC2SQHT4K9RM.mock-token"

def mockToken2 : String := "ST19JE8EPR84AJ8Z30B5ZB08WXTB6FC2SQHT4K9RM.mock-token-2"

def mockToken3 : String := "ST19JE8EPR84AJ8Z30B5ZB08WXTB6FC2SQHT4K9RM.mock-token-3"

def mockToken4 : String := "ST19JE8EPR84AJ8Z30B5ZB08WXTB6FC2SQHT4K9RM.mock-token-4"

def mockToken5 : String := "ST19JE8EPR84AJ8Z30B5ZB08WXTB6FC2SQHT4K9RM.mock-token-5"

def mockToken6 : String := "ST19JE8EPR84AJ8Z30B5ZB08WXTB6FC2SQHT4K9RM.mock-token-6"

def knownTokens : List String :=
  [mockToken, mockToken2, mockToken3, mockToken4, mockToken5, mockToken6]

def directFees : List Nat := [500]

/-- All pairs `(l[i], l[j])` with `i < j`, matching the nested index loops. -/
def orderedPairs {α : Type} : List α → List (α × α)
  | [] => []
  | x :: xs => (xs.map fun y => (x, y)) ++ orderedPairs xs

/-- The probe sequence of `getAllPoolsDirect`: for each unordered known pair
and each fee, both token orders. -/
def directProbes : List (String × String × Nat) :=
  (orderedPairs knownTokens).flatMap fun ab =>
    directFees.flatMap fun fee => [(ab.1, ab.2, fee), (ab.2, ab.1, fee)]

/-- One probe of the direct path: existence check, then the read chain.
Any miss or throw skips the probe. -/
def tryDirect (env : Env) (t0 t1 : String) (fee : Nat) : Option Pool :=
  if env.poolExists t0 t1 fee then buildAuthoritative env t0 t1 fee else none

/-- `getAllPoolsDirect`: sweep the hardcoded token pairs and fee tiers,
keeping every successful probe (note: both orders of a pair are probed and
both can be kept; no canonicalization is applied here). -/
def getAllPoolsDirect (env : Env) : List Pool :=
  directProbes.filterMap fun pr => tryDirect env pr.1 pr.2.1 pr.2.2

/-! ## Reconciliation (`getAllPools` lines 320-382) -/

/-- The merge step: index the direct pools by key (later entries replace
earlier ones, as `Map.set` does), then replace every event pool that "looks
like a fallback" by the direct record at its key, when present. -/
def mergeStep (pools directPools : List Pool) : List Pool :=
  let directByPair :=
    directPools.foldl (fun m dp => mapSet m (poolKeyStr dp) dp) []
  pools.map fun p =>
    match mapGet directByPair (poolKeyStr p) with
    | some dp => if looksFallback p then dp else p
    | none => p

/-- One step of the dedup fold: first sighting of a key is kept; a later
record replaces the stored one only when it has a hex id and the stored one
does not. -/
def dedupInsert (m : List (String × Pool)) (p : Pool) : List (String × Pool) :=
  match mapGet m (poolKeyStr p) with
  | none => mapSet m (poolKeyStr p) p
  | some existing =>
    if isHexId p.id && !(isHexId existing.id) then mapSet m (poolKeyStr p) p
    else m

/-- The dedup pass: fold the merged list into the key map and take the
values in insertion order. -/
def dedupStep (pools : List Pool) : List Pool :=
  (pools.foldl dedupInsert []).map Prod.snd

/-- The final fix-up pass on one record: re-resolve a record without a hex
id, keeping it when resolution fails. -/
def fixOne (env : Env) (p : Pool) : Pool :=
  if !(isHexId p.id) then
    match resolvePoolByPair env p.token0 p.token1 p.fee with
    | some resolved => resolved
    | none => p
  else p

/-- The discovery run `getAllPools`: scan the event log, process every
entry, and if nothing was found fall back to the direct sweep; otherwise
merge with the direct sweep, dedup by key string, and run the fix-up pass. -/
def getAllPools (log : List RawEvent) (tfail : Nat → Bool) (env : Env) :
    List Pool :=
  let events := (scanCollect log tfail 0).1
  let pools := events.filterMap (processEvent env)
  if pools.isEmpty then getAllPoolsDirect env
  else
    let merged := mergeStep pools (getAllPoolsDirect env)
    let deduped := dedupStep merged
    deduped.map (fixOne env)

/-- Same canonical pool key: same unordered token pair and same fee. -/
def samePoolKey (p q : Pool) : Bool :=
  ((p.token0 == q.token0 && p.token1 == q.token1) ||
   (p.token0 == q.token1 && p.token1 == q.token0)) && p.fee == q.fee

/-! ## `addLiquidity` pre-flight (amm.ts lines 519-569) -/

inductive PreflightResult where
  | ok : PreflightResult
  | ratioError : Nat → PreflightResult
  | tooSmall : PreflightResult
deriving DecidableEq

/-- The pre-flight check of `addLiquidity` after base-unit conversion.  For a
funded pool the source computes `Math.floor(amount0Base / (balance0 /
balance1))` with floating division; this branch is modelled by the exact
rational value `amount0Base * balance1 / balance0` (floor), which can differ
from the double-rounded source at some inputs (e.g. balances 10 and 3 with
`amount0Base` 10: the source's `10 / (10/3)` rounds to `2.9999999999999996`
and floors to 2, while the exact value floors to 3) — no theorem below is
stated about this branch.  For an unfunded pool the source computes
`Math.floor(Math.sqrt(amount0Base * amount1Base))`, modelled by `Nat.sqrt`
(the two coincide at every base-unit input: products below `2^53` are exact
doubles, and larger ones are far above the threshold), and requires it to
exceed the contract constant `MINIMUM_LIQUIDITY = 1000`. -/
def addLiquidityPreflight (pool : Pool) (amount0Base amount1Base : Nat) :
    PreflightResult :=
  if pool.liquidity > 0 then
    let idealAmount1Base := amount0Base * pool.balance1 / pool.balance0
    if amount1Base < idealAmount1Base then PreflightResult.ratioError idealAmount1Base
    else PreflightResult.ok
  else
    if Nat.sqrt (amount0Base * amount1Base) ≤ 1000 then PreflightResult.tooSmall
    else PreflightResult.ok

def zeroAmountMsg : String := "Cannot add liquidity with 0 amount"

def tooSmallMsg : String :=
  "Initial deposit too small. Increase amounts so sqrt(x*y) > 1000 (in base units)."

def ratioMsgPrefix : String := "You need at least "

/-- `amount === 0` on a JS number. -/
def JSNumber.isZero : JSNumber → Bool
  | JSNumber.nonFinite => false
  | JSNumber.neg _ => false
  | JSNumber.nonneg r => decide (r.intPart = 0 ∧ digitsToNat r.frac = 0)

/-- The unsigned-call descriptor returned by `addLiquidity` (principal and
uint arguments of the `add-liquidity` call). -/
structure AddLiquidityCall where
  token0 : String
  token1 : String
  fee : Nat
  amount0 : Nat
  amount1 : Nat
  minAmount0 : Nat
  minAmount1 : Nat
deriving DecidableEq

/-- `addLiquidity`: reject a zero amount first, then look up both tokens'
decimals (`dec0`/`dec1` are the oracle results of `getTokenDecimals`, which
can itself fail), convert to base units, run the pre-flight check, and
return the call options.  Error messages are modelled up to their fixed
prefix. -/
def addLiquidity (pool : Pool) (amount0 amount1 : JSNumber)
    (dec0 dec1 : Except String ℚ) : Except String AddLiquidityCall :=
  if amount0.isZero || amount1.isZero then Except.error zeroAmountMsg
  else do
    let d0 ← dec0
    let d1 ← dec1
    let amount0Base ← toBaseUnits amount0 d0
    let amount1Base ← toBaseUnits amount1 d1
    match addLiquidityPreflight pool amount0Base amount1Base with
    | PreflightResult.ratioError ideal =>
      Except.error (ratioMsgPrefix ++ toString ideal)
    | PreflightResult.tooSmall => Except.error tooSmallMsg
    | PreflightResult.ok =>
      Except.ok { token0 := pool.token0, token1 := pool.token1,
                  fee := pool.fee, amount0 := amount0Base,
                  amount1 := amount1Base, minAmount0 := 0, minAmount1 := 0 }

/-! ## Concrete instances used by scenario and counterexample theorems -/

def noFail : Nat → Bool := fun _ => false

def failAt0 : Nat → Bool := fun offset => offset == 0

def demoEvent : RawEvent :=
  { eventType := smartContractLogType, contractId := ammContractPrincipal,
    topic := printTopic, payload := none }

def demoLog62 : List RawEvent := List.replicate 62 demoEvent

def dupPoolId : String := "0xabc1"

/-- An external state in which the ledger reports the pool for the first two
known tokens at fee 500 as existing under both probe orders. -/
def envDup : Env :=
  { enc := fun s => some s,
    getPoolId := fun _ _ _ => some dupPoolId,
    getPoolData := fun _ =>
      some { liquidity := 100, balance0 := 10, balance1 := 10 },
    poolExists := fun t0 t1 fee =>
      ((t0 == mockToken && t1 == mockToken2) ||
       (t0 == mockToken2 && t1 == mockToken)) && fee == 500 }

def dupPoolA : Pool :=
  { id := dupPoolId, token0 := mockToken, token1 := mockToken2, fee := 500,
    liquidity := 100, balance0 := 10, balance1 := 10 }

def dupPoolB : Pool :=
  { id := dupPoolId, token0 := mockToken2, token1 := mockToken, fee := 500,
    liquidity := 100, balance0 := 10, balance1 := 10 }

def tokA : String := "t.a"

def tokB : String := "t.b"

def beefId : String := "0xbeef"

/-- A single well-formed `create-pool` event for the pair `(tokA, tokB)`. -/
def evCreate : RawEvent :=
  { eventType := smartContractLogType, contractId := ammContractPrincipal,
    topic := printTopic,
    payload := some { isTuple := true, action := some createPoolAction,
                      data := some { token0 := tokA, token1 := tokB,
                                     fee := 500, balance0 := none,
                                     balance1 := none, liquidity := none } } }

/-- An external state whose authoritative pool data for any id carries the
given liquidity and reserve values; the direct sweep finds nothing. -/
def envData (liq b0 b1 : Nat) : Env :=
  { enc := fun s => some s,
    getPoolId := fun _ _ _ => some beefId,
    getPoolData := fun _ =>
      some { liquidity := liq, balance0 := b0, balance1 := b1 },
    poolExists := fun _ _ _ => false }

def poolData (liq b0 b1 : Nat) : Pool :=
  { id := beefId, token0 := tokA, token1 := tokB, fee := 500,
    liquidity := liq, balance0 := b0, balance1 := b1 }

def emptyPool : Pool :=
  { id := dupPoolId, token0 := tokA, token1 := tokB, fee := 500,
    liquidity := 0, balance0 := 0, balance1 := 0 }

def idEnc : String → Option String := fun s => some s

def netErrMsg : String := "network failure"

def zeroAmount : JSNumber := JSNumber.nonneg { intPart := 0, frac := [] }

def oneAmount : JSNumber := JSNumber.nonneg { intPart := 1, frac := [] }

/-! ## Quote engine lemmas -/

theorem applyFeeQuote_eq (o fee : Nat) :
    applyFeeQuote o fee = o - o * fee / 10000 := by
  unfold applyFeeQuote
  simp only []
  split <;> omega

theorem applyFeeQuote_le (o fee : Nat) : applyFeeQuote o fee ≤ o := by
  rw [applyFeeQuote_eq]
  omega

theorem postFee_mono (fee r s : Nat) (hrs : r ≤ s) :
    r - r * fee / 10000 ≤ s - s * fee / 10000 := by
  rcases le_or_lt fee 10000 with hf | hf
  · have h1 : s * fee ≤ r * fee + (s - r) * 10000 := by
      have hs : s = r + (s - r) := by omega
      calc s * fee = r * fee + (s - r) * fee := by nlinarith [hs]
        _ ≤ r * fee + (s - r) * 10000 := by
            have h2 : (s - r) * fee ≤ (s - r) * 10000 := Nat.mul_le_mul_left _ hf
            omega
    have h2 : s * fee / 10000 ≤ r * fee / 10000 + (s - r) := by
      calc s * fee / 10000 ≤ (r * fee + (s - r) * 10000) / 10000 :=
            Nat.div_le_div_right h1
        _ = r * fee / 10000 + (s - r) := Nat.add_mul_div_right _ _ (by norm_num)
    omega
  · have hr : r ≤ r * fee / 10000 := by
      have h3 : r * 10000 / 10000 ≤ r * fee / 10000 :=
        Nat.div_le_div_right (Nat.mul_le_mul_left _ (le_of_lt hf))
      simpa using h3
    omega

theorem swapRawOutput_mono (x y : Nat) (zeroForOne : Bool) (a b : Nat)
    (hx : 0 < x) (hy : 0 < y) (hab : a ≤ b) :
    swapRawOutput x y zeroForOne a ≤ swapRawOutput x y zeroForOne b := by
  unfold swapRawOutput
  cases zeroForOne <;> simp only [Bool.false_eq_true, if_true, if_false]
  · exact Nat.sub_le_sub_left (Nat.div_le_div_left (by omega) (by omega)) x
  · exact Nat.sub_le_sub_left (Nat.div_le_div_left (by omega) (by omega)) y

theorem estimateSwapOutput_le_raw (x y : Nat) (zeroForOne : Bool)
    (delta fee : Nat) :
    estimateSwapOutput x y zeroForOne delta fee ≤
      swapRawOutput x y zeroForOne delta := by
  unfold estimateSwapOutput
  split
  · exact Nat.zero_le _
  · split
    · exact Nat.zero_le _
    · simp only []
      split
      · exact Nat.zero_le _
      · exact applyFeeQuote_le _ _

/-- Claim C1: for reserves (1000000, 1000000), fee 500 bps and input 10000
base units the estimator computes k = 10^12, term = 990099, rawOut = 9901,
fees = 495 and returns the quote 9406. -/
theorem estimateSwapOutput_scenario :
    (1000000 * 1000000 : Nat) = 1000000000000 ∧
    (1000000000000 : Nat) / (1000000 + 10000) = 990099 ∧
    swapRawOutput 1000000 1000000 true 10000 = 9901 ∧
    (9901 * 500 : Nat) / 10000 = 495 ∧
    estimateSwapOutput 1000000 1000000 true 10000 500 = 9406 := by
  refine ⟨by norm_num, by decide, by decide, by decide, by decide⟩

/-- Claim C2 counterexample: the estimate is not strictly increasing in the
input amount.  For reserves (2, 2) and fee 500 the inputs 1 and 2 (both
positive, 1 < 2) produce the same quote 1. -/
theorem estimateSwapOutput_not_strict :
    (0 < 1 ∧ 1 < 2) ∧
    estimateSwapOutput 2 2 true 1 500 = 1 ∧
    estimateSwapOutput 2 2 true 2 500 = 1 ∧
    ¬ estimateSwapOutput 2 2 true 1 500 < estimateSwapOutput 2 2 true 2 500 := by
  decide

/-- Claim C2 (amended): for fixed reserves and fee the swap output estimate
is monotonically non-decreasing (not strictly increasing) in the input
amount in base units. -/
theorem estimateSwapOutput_mono (x y : Nat) (zeroForOne : Bool) (fee a b : Nat)
    (hab : a ≤ b) :
    estimateSwapOutput x y zeroForOne a fee ≤
      estimateSwapOutput x y zeroForOne b fee := by
  unfold estimateSwapOutput
  by_cases hg : x = 0 ∨ y = 0
  · simp [hg]
  · have hx : 0 < x := by omega
    have hy : 0 < y := by omega
    simp only [hg, if_false]
    by_cases ha0 : a = 0
    · simp [ha0]
    · have hb0 : ¬ b = 0 := by omega
      simp only [ha0, hb0, if_false]
      have hraw := swapRawOutput_mono x y zeroForOne a b hx hy hab
      by_cases hA : swapRawOutput x y zeroForOne a = 0
      · simp [hA]
      · have hB : ¬ swapRawOutput x y zeroForOne b = 0 := by omega
        simp only [hA, hB, if_false]
        rw [applyFeeQuote_eq, applyFeeQuote_eq]
        exact postFee_mono fee _ _ hraw

/-- Witness for the amended claim C2 at concrete inputs. -/
theorem estimateSwapOutput_mono_witness :
    estimateSwapOutput 1000000 1000000 true 10000 500 ≤
      estimateSwapOutput 1000000 1000000 true 20000 500 :=
  estimateSwapOutput_mono 1000000 1000000 true 500 10000 20000 (by norm_num)

/-! ## `toBaseUnits` lemmas -/

theorem foldlDigits_eq (a : Nat) (ds : List Nat) :
    ds.foldl (fun x dig => x * 10 + dig) a = a * 10 ^ ds.length + digitsToNat ds := by
  induction ds generalizing a with
  | nil => simp [digitsToNat]
  | cons d ds ih =>
    have h1 : digitsToNat (d :: ds) = d * 10 ^ ds.length + digitsToNat ds := by
      unfold digitsToNat
      simp only [List.foldl_cons, Nat.zero_mul, Nat.zero_add]
      rw [ih d]
      rfl
    simp only [List.foldl_cons, List.length_cons]
    rw [ih (a * 10 + d), h1]
    ring

theorem digitsToNat_cons (d : Nat) (ds : List Nat) :
    digitsToNat (d :: ds) = d * 10 ^ ds.length + digitsToNat ds := by
  unfold digitsToNat
  simp only [List.foldl_cons, Nat.zero_mul, Nat.zero_add]
  rw [foldlDigits_eq d ds]
  rfl

theorem digitsToNat_append (xs ys : List Nat) :
    digitsToNat (xs ++ ys) = digitsToNat xs * 10 ^ ys.length + digitsToNat ys := by
  unfold digitsToNat
  rw [List.foldl_append]
  exact foldlDigits_eq _ ys

theorem digitsToNat_replicate_zero (k : Nat) :
    digitsToNat (List.replicate k 0) = 0 := by
  induction k with
  | zero => rfl
  | succ k ih =>
    rw [List.replicate_succ, digitsToNat_cons, ih]
    simp

theorem digitsToNat_lt (ds : List Nat) (h : ∀ x ∈ ds, x < 10) :
    digitsToNat ds < 10 ^ ds.length := by
  induction ds with
  | nil => simp [digitsToNat]
  | cons d ds ih =>
    have hd : d < 10 := h d (List.mem_cons_self d ds)
    have hds := ih (fun x hx => h x (List.mem_cons_of_mem d hx))
    rw [digitsToNat_cons]
    simp only [List.length_cons, pow_succ]
    nlinarith

/-- The padded-and-truncated digit string computed by `toBaseUnits` has the
value `f * 10 ^ d / 10 ^ L` (floor division), where `f` is the value of the
full fractional digit string of length `L`. -/
theorem truncDigits_eq (frac : List Nat) (d : Nat) (hd : ∀ x ∈ frac, x < 10) :
    digitsToNat ((padEndZeros frac d).take d) =
      digitsToNat frac * 10 ^ d / 10 ^ frac.length := by
  rcases le_or_lt frac.length d with hLd | hdL
  · have hlen : (padEndZeros frac d).length = d := by
      unfold padEndZeros
      simp only [List.length_append, List.length_replicate]
      omega
    rw [List.take_of_length_le (le_of_eq hlen)]
    unfold padEndZeros
    rw [digitsToNat_append, digitsToNat_replicate_zero, List.length_replicate]
    have h10 : (10 : Nat) ^ d = 10 ^ (d - frac.length) * 10 ^ frac.length := by
      rw [← pow_add]
      congr 1
      omega
    rw [h10, ← mul_assoc, Nat.mul_div_cancel _ (by positivity)]
    omega
  · have hpe : padEndZeros frac d = frac := by
      unfold padEndZeros
      have hz : d - frac.length = 0 := by omega
      simp [hz]
    rw [hpe]
    have hsplit : digitsToNat frac =
        digitsToNat (frac.take d) * 10 ^ (frac.length - d) +
          digitsToNat (frac.drop d) := by
      conv_lhs => rw [← List.take_append_drop d frac]
      rw [digitsToNat_append, List.length_drop]
    have hrem : digitsToNat (frac.drop d) < 10 ^ (frac.length - d) := by
      have h1 := digitsToNat_lt (frac.drop d)
        (fun x hx => hd x (List.mem_of_mem_drop hx))
      rwa [List.length_drop] at h1
    have h10 : (10 : Nat) ^ frac.length = 10 ^ (frac.length - d) * 10 ^ d := by
      rw [← pow_add]
      congr 1
      omega
    rw [h10, Nat.mul_div_mul_right _ _ (by positivity : (0:Nat) < 10 ^ d), hsplit]
    rw [mul_comm (digitsToNat (frac.take d)) (10 ^ (frac.length - d))]
    rw [Nat.mul_add_div (by positivity), Nat.div_eq_of_lt hrem]
    omega

/-- The floor of `decValue r * 10 ^ d` in integer arithmetic. -/
theorem floor_decValue (r : DecRep) (d : Nat) :
    ⌊decValue r * 10 ^ d⌋₊ =
      r.intPart * 10 ^ d + digitsToNat r.frac * 10 ^ d / 10 ^ r.frac.length := by
  unfold decValue
  rw [add_mul, div_mul_eq_mul_div]
  have e1 : ((r.intPart : ℚ) * 10 ^ d) = ((r.intPart * 10 ^ d : Nat) : ℚ) := by
    push_cast; ring
  have e2 : ((digitsToNat r.frac : ℚ) * 10 ^ d) =
      ((digitsToNat r.frac * 10 ^ d : Nat) : ℚ) := by
    push_cast; ring
  have e3 : ((10 : ℚ) ^ r.frac.length) = ((10 ^ r.frac.length : Nat) : ℚ) := by
    push_cast; ring
  rw [e1, e2, e3, add_comm]
  rw [Nat.floor_add_nat (by positivity)]
  rw [Nat.floor_div_nat, Nat.floor_natCast]
  ring

/-! ### The string-level computation on `toString` output -/

theorem splitOnChar_ne_nil (sep : Char) (cs : List Char) :
    splitOnChar sep cs ≠ [] := by
  cases cs with
  | nil => simp [splitOnChar]
  | cons c cs =>
    simp only [splitOnChar]
    cases h : splitOnChar sep cs with
    | nil => simp
    | cons part parts => by_cases hcs : c = sep <;> simp [hcs]

theorem splitOnChar_not_mem (sep : Char) :
    ∀ cs : List Char, sep ∉ cs → splitOnChar sep cs = [cs] := by
  intro cs
  induction cs with
  | nil =>
    intro _
    rfl
  | cons c cs ih =>
    intro h
    have hc : ¬ c = sep := fun hcc => h (hcc ▸ List.mem_cons_self c cs)
    simp [splitOnChar, ih (fun hm => h (List.mem_cons_of_mem c hm)), hc]

theorem splitOnChar_append (sep : Char) (fp : List Char) :
    ∀ ip : List Char, sep ∉ ip →
      splitOnChar sep (ip ++ sep :: fp) = ip :: splitOnChar sep fp := by
  intro ip
  induction ip with
  | nil =>
    intro _
    cases hf : splitOnChar sep fp with
    | nil => exact absurd hf (splitOnChar_ne_nil sep fp)
    | cons part parts => simp [splitOnChar, hf]
  | cons c ip ih =>
    intro h
    have hc : ¬ c = sep := fun hcc => h (hcc ▸ List.mem_cons_self c ip)
    simp [splitOnChar, ih (fun hm => h (List.mem_cons_of_mem c hm)), hc]

theorem digitVal_lt_ten {c : Char} (h : isDecDigit c = true) :
    digitVal c < 10 := by
  unfold isDecDigit at h
  rw [decide_eq_true_iff] at h
  unfold digitVal
  omega

theorem bigIntOfDigits_digits {cs : List Char}
    (h : ∀ c ∈ cs, isDecDigit c = true) :
    bigIntOfDigits (if cs.isEmpty then ['0'] else cs) =
      Except.ok (digitsToNat (cs.map digitVal)) := by
  cases cs with
  | nil => rfl
  | cons c cs =>
    simp only [List.isEmpty_cons, Bool.false_eq_true, if_false]
    unfold bigIntOfDigits
    rw [if_pos (List.all_eq_true.mpr h)]

/-- On a positional representation `I.F` the string-level computation
returns exactly the represented value truncated to `d` digits times
`10 ^ d`. -/
theorem toBaseUnitsStr_positional (ip fp : List Char) (d : Nat)
    (hne : ip ≠ []) (hip : ∀ c ∈ ip, isDecDigit c = true)
    (hfp : ∀ c ∈ fp, isDecDigit c = true) :
    toBaseUnitsStr (ip ++ '.' :: fp) d =
      Except.ok ⌊decValue ⟨digitsToNat (ip.map digitVal), fp.map digitVal⟩ *
        10 ^ d⌋₊ := by
  have hdotip : ('.' : Char) ∉ ip := fun hm => absurd (hip _ hm) (by decide)
  have hdotfp : ('.' : Char) ∉ fp := fun hm => absurd (hfp _ hm) (by decide)
  have hwrap : (if ip.isEmpty then [('0' : Char)] else ip) = ip := by
    cases ip with
    | nil => exact absurd rfl hne
    | cons c cs => rfl
  have hbiIp : bigIntOfDigits ip = Except.ok (digitsToNat (ip.map digitVal)) := by
    unfold bigIntOfDigits
    rw [if_pos (List.all_eq_true.mpr hip)]
  have hfracDig : ∀ c ∈ (fp ++ List.replicate (d - fp.length) ('0' : Char)).take d,
      isDecDigit c = true := by
    intro c hc
    rcases List.mem_append.mp (List.mem_of_mem_take hc) with h1 | h1
    · exact hfp c h1
    · rw [List.eq_of_mem_replicate h1]
      decide
  have hFmap : (((fp ++ List.replicate (d - fp.length) ('0' : Char)).take d).map
      digitVal) = (padEndZeros (fp.map digitVal) d).take d := by
    rw [List.map_take, List.map_append, List.map_replicate]
    unfold padEndZeros
    rw [List.length_map]
    rfl
  have hdlt : ∀ x ∈ fp.map digitVal, x < 10 := by
    intro x hx
    obtain ⟨c, hc, hcv⟩ := List.mem_map.mp hx
    exact hcv ▸ digitVal_lt_ten (hfp c hc)
  unfold toBaseUnitsStr
  rw [splitOnChar_append ('.') fp ip hdotip, splitOnChar_not_mem ('.') fp hdotfp]
  simp only [List.headD_cons, List.drop_succ_cons, List.drop_zero]
  rw [hwrap, hbiIp, bigIntOfDigits_digits hfracDig]
  rw [floor_decValue]
  simp only []
  rw [← truncDigits_eq (fp.map digitVal) d hdlt]
  rw [← hFmap]
  rfl

/-- On a positional representation with no fractional part the string-level
computation pads `d` zero digits and returns the integer value times
`10 ^ d`. -/
theorem toBaseUnitsStr_integer (ip : List Char) (d : Nat)
    (hne : ip ≠ []) (hip : ∀ c ∈ ip, isDecDigit c = true) :
    toBaseUnitsStr ip d = Except.ok (digitsToNat (ip.map digitVal) * 10 ^ d) := by
  have hdotip : ('.' : Char) ∉ ip := fun hm => absurd (hip _ hm) (by decide)
  have hwrap : (if ip.isEmpty then [('0' : Char)] else ip) = ip := by
    cases ip with
    | nil => exact absurd rfl hne
    | cons c cs => rfl
  have hbiIp : bigIntOfDigits ip = Except.ok (digitsToNat (ip.map digitVal)) := by
    unfold bigIntOfDigits
    rw [if_pos (List.all_eq_true.mpr hip)]
  have hzeros : ∀ c ∈ (([] : List Char) ++
      List.replicate (d - ([] : List Char).length) ('0' : Char)).take d,
      isDecDigit c = true := by
    intro c hc
    rcases List.mem_append.mp (List.mem_of_mem_take hc) with h1 | h1
    · exact absurd h1 (List.not_mem_nil c)
    · rw [List.eq_of_mem_replicate h1]
      decide
  have hF : digitsToNat (((([] : List Char) ++
      List.replicate (d - ([] : List Char).length) ('0' : Char)).take d).map
      digitVal) = 0 := by
    simp only [List.nil_append, List.length_nil, Nat.sub_zero,
      List.take_replicate, List.map_replicate, Nat.min_self]
    rw [show digitVal ('0') = 0 from rfl]
    exact digitsToNat_replicate_zero d
  unfold toBaseUnitsStr
  rw [splitOnChar_not_mem ('.') ip hdotip]
  simp only [List.headD_cons, List.drop_succ_cons, List.drop_nil,
    List.headD_nil]
  rw [hwrap, hbiIp, bigIntOfDigits_digits hzeros, hF]
  rfl

/-- Claim C5 (amended): `toBaseUnits` fails for non-finite and negative
amounts and for negative or non-integer decimals; for every accepted input
whose `toString()` output is in positional decimal notation — the format
produced for zero and for amounts in `[1e-6, 1e21)`, an integer part with
optional fractional digits — the string-level computation truncates the
fractional digits beyond `decimals` places (padding missing digits with
zeros) and returns exactly the represented value truncated to `decimals`
digits times `10 ^ decimals`.  For exponential-notation outputs the
function misparses or throws a `SyntaxError`; see the counterexample. -/
theorem toBaseUnits_spec :
    (∀ d : ℚ, toBaseUnits JSNumber.nonFinite d = Except.error amountErrMsg) ∧
    (∀ (r : DecRep) (d : ℚ),
      toBaseUnits (JSNumber.neg r) d = Except.error amountErrMsg) ∧
    (∀ (r : DecRep) (d : ℚ), d.den ≠ 1 ∨ d < 0 →
      toBaseUnits (JSNumber.nonneg r) d = Except.error decimalsErrMsg) ∧
    (∀ (ip fp : List Char) (d : Nat), ip ≠ [] →
      (∀ c ∈ ip, isDecDigit c = true) → (∀ c ∈ fp, isDecDigit c = true) →
      toBaseUnitsStr (ip ++ '.' :: fp) d =
        Except.ok ⌊decValue ⟨digitsToNat (ip.map digitVal), fp.map digitVal⟩ *
          10 ^ d⌋₊) ∧
    (∀ (ip : List Char) (d : Nat), ip ≠ [] →
      (∀ c ∈ ip, isDecDigit c = true) →
      toBaseUnitsStr ip d =
        Except.ok (digitsToNat (ip.map digitVal) * 10 ^ d)) := by
  refine ⟨fun d => rfl, fun r d => rfl, fun r d h => ?_,
    fun ip fp d h1 h2 h3 => toBaseUnitsStr_positional ip fp d h1 h2 h3,
    fun ip d h1 h2 => toBaseUnitsStr_integer ip d h1 h2⟩
  simp only [toBaseUnits]
  rw [if_pos h]

/-- Claim C5 counterexample: ECMAScript `Number::toString` formats `1.5e-7`
as the exponential string `"1.5e-7"` (its decimal exponent is below `-6`),
and `1.5e-7` is an accepted input (non-negative and finite, with the
non-negative integer decimals 1 resp. 6 accepted by the guards).  On it the
source computes `BigInt("1") * 10n + BigInt("5") = 15n` — whereas the
claimed truncation law demands `⌊1.5e-7 · 10¹⌋ = 0` — and with 6 decimals
throws a `SyntaxError` from `BigInt("5e-700")` instead of truncating. -/
theorem toBaseUnits_exponential_misparse :
    toBaseUnitsStr ("1.5e-7").data 1 = Except.ok 15 ∧
    ⌊((15 : ℚ) / 10 ^ 8) * 10 ^ 1⌋₊ = 0 ∧ (15 : Nat) ≠ 0 ∧
    toBaseUnitsStr ("1.5e-7").data 6 = Except.error syntaxErrMsg := by
  refine ⟨by rfl, ?_, by decide, by rfl⟩
  rw [Nat.floor_eq_zero]
  norm_num

/-- Witness for the amended claim C5 at concrete inputs ("1.234" with 2
decimals truncates to 123 base units, "15" with 3 decimals pads to 15000;
the guards reject their inputs). -/
theorem toBaseUnits_spec_witness :
    toBaseUnits JSNumber.nonFinite 6 = Except.error amountErrMsg ∧
    toBaseUnits (JSNumber.neg { intPart := 1, frac := [5] }) 6 =
      Except.error amountErrMsg ∧
    toBaseUnits (JSNumber.nonneg { intPart := 1, frac := [] }) (-1) =
      Except.error decimalsErrMsg ∧
    toBaseUnitsStr (['1'] ++ '.' :: ['2', '3', '4']) 2 =
      Except.ok ⌊decValue ⟨digitsToNat ((['1']).map digitVal),
        (['2', '3', '4']).map digitVal⟩ * 10 ^ 2⌋₊ ∧
    toBaseUnitsStr (['1'] ++ '.' :: ['2', '3', '4']) 2 = Except.ok 123 ∧
    toBaseUnitsStr ['1', '5'] 3 =
      Except.ok (digitsToNat ((['1', '5']).map digitVal) * 10 ^ 3) := by
  refine ⟨toBaseUnits_spec.1 6, toBaseUnits_spec.2.1 _ 6,
    toBaseUnits_spec.2.2.1 _ _ (Or.inr (by norm_num)),
    toBaseUnits_spec.2.2.2.1 (['1']) (['2', '3', '4']) 2 (by decide)
      (by decide) (by decide),
    by rfl,
    toBaseUnits_spec.2.2.2.2 (['1', '5']) 3 (by decide) (by decide)⟩

/-- Claim C9: for positive reserves and a positive input the pre-fee raw
output never exceeds the output-side reserve, and therefore the displayed
post-fee quote is also at most that reserve (in both swap directions). -/
theorem swapQuote_le_reserve (x y delta fee : Nat)
    (_hx : 0 < x) (_hy : 0 < y) (_hd : 0 < delta) :
    swapRawOutput x y true delta ≤ y ∧
    swapRawOutput x y false delta ≤ x ∧
    estimateSwapOutput x y true delta fee ≤ y ∧
    estimateSwapOutput x y false delta fee ≤ x := by
  have h1 : swapRawOutput x y true delta ≤ y := by
    unfold swapRawOutput
    simp only [if_true]
    exact Nat.sub_le _ _
  have h2 : swapRawOutput x y false delta ≤ x := by
    unfold swapRawOutput
    simp only [Bool.false_eq_true, if_false]
    exact Nat.sub_le _ _
  exact ⟨h1, h2, le_trans (estimateSwapOutput_le_raw x y true delta fee) h1,
    le_trans (estimateSwapOutput_le_raw x y false delta fee) h2⟩

/-- Witness for claim C9 at concrete inputs. -/
theorem swapQuote_le_reserve_witness :
    swapRawOutput 1000000 1000000 true 10000 ≤ 1000000 ∧
    swapRawOutput 1000000 1000000 false 10000 ≤ 1000000 ∧
    estimateSwapOutput 1000000 1000000 true 10000 500 ≤ 1000000 ∧
    estimateSwapOutput 1000000 1000000 false 10000 500 ≤ 1000000 :=
  swapQuote_le_reserve 1000000 1000000 10000 500 (by norm_num) (by norm_num)
    (by norm_num)

/-! ## Canonicalization lemmas -/

theorem charListLt_asymm : ∀ as bs, charListLt as bs = true →
    charListLt bs as = false := by
  intro as
  induction as with
  | nil =>
    intro bs h
    cases bs with
    | nil => simp [charListLt] at h
    | cons b bs => rfl
  | cons a as ih =>
    intro bs h
    cases bs with
    | nil => simp [charListLt] at h
    | cons b bs =>
      unfold charListLt at h ⊢
      rcases lt_trichotomy a b with hab | hab | hab
      · rw [if_neg (lt_asymm hab), if_pos hab]
      · subst hab
        rw [if_neg (lt_irrefl a), if_neg (lt_irrefl a)] at h ⊢
        exact ih bs h
      · rw [if_neg (lt_asymm hab), if_pos hab] at h
        exact absurd h (by simp)

theorem charListLt_eq : ∀ as bs, charListLt as bs = false →
    charListLt bs as = false → as = bs := by
  intro as
  induction as with
  | nil =>
    intro bs h1 _
    cases bs with
    | nil => rfl
    | cons b bs => simp [charListLt] at h1
  | cons a as ih =>
    intro bs h1 h2
    cases bs with
    | nil => simp [charListLt] at h2
    | cons b bs =>
      unfold charListLt at h1 h2
      rcases lt_trichotomy a b with hab | hab | hab
      · rw [if_pos hab] at h1
        exact absurd h1 (by simp)
      · subst hab
        rw [if_neg (lt_irrefl a), if_neg (lt_irrefl a)] at h1 h2
        rw [ih bs h1 h2]
      · rw [if_pos hab] at h2
        exact absurd h2 (by simp)

theorem strLt_asymm {a b : String} (h : strLt a b = true) :
    strLt b a = false :=
  charListLt_asymm a.data b.data h

theorem strLt_eq {a b : String} (h1 : strLt a b = false)
    (h2 : strLt b a = false) : a = b :=
  String.ext (charListLt_eq a.data b.data h1 h2)

theorem strLt_cases (a b : String) :
    strLt a b = true ∨ a = b ∨ strLt b a = true := by
  cases h1 : strLt a b
  · cases h2 : strLt b a
    · exact Or.inr (Or.inl (strLt_eq h1 h2))
    · exact Or.inr (Or.inr rfl)
  · exact Or.inl rfl

theorem strLt_irrefl (a : String) : strLt a a = false := by
  cases h : strLt a a
  · rfl
  · have h2 : strLt a a = false := charListLt_asymm a.data a.data h
    rw [h] at h2
    exact absurd h2 (by simp)

theorem canonicalizePair_eq (enc : String → Option String) (x y hx hy : String)
    (hex : enc x = some hx) (hey : enc y = some hy) :
    canonicalizePair enc x y = if strLt hy hx then (y, x) else (x, y) := by
  unfold canonicalizePair
  rw [hex, hey]

/-- Claim C6: canonicalization of a token pair is order-symmetric and
idempotent.  `enc` models `cvToHex(principalCV(·))`, which is injective on
valid principal strings (the encoding is decodable); both tokens are assumed
to encode successfully, matching the claim's restriction to token
principals. -/
theorem canonicalizePair_symm_idem (enc : String → Option String)
    (hinj : ∀ a b ha hb, enc a = some ha → enc b = some hb → ha = hb → a = b)
    (a b : String) (hA : (enc a).isSome) (hB : (enc b).isSome) :
    canonicalizePair enc a b = canonicalizePair enc b a ∧
    canonicalizePair enc (canonicalizePair enc a b).1
      (canonicalizePair enc a b).2 = canonicalizePair enc a b := by
  obtain ⟨ha, hea⟩ := Option.isSome_iff_exists.mp hA
  obtain ⟨hb, heb⟩ := Option.isSome_iff_exists.mp hB
  rcases strLt_cases ha hb with hlt | heq | hgt
  · have h1 : canonicalizePair enc a b = (a, b) := by
      rw [canonicalizePair_eq enc a b ha hb hea heb, strLt_asymm hlt]
      simp
    have h2 : canonicalizePair enc b a = (a, b) := by
      rw [canonicalizePair_eq enc b a hb ha heb hea, hlt]
      simp
    refine ⟨by rw [h1, h2], ?_⟩
    rw [h1]
    exact h1
  · have hab : a = b := hinj a b ha hb hea heb heq
    subst hab
    have h1 : canonicalizePair enc a a = (a, a) := by
      rw [canonicalizePair_eq enc a a ha ha hea hea, strLt_irrefl ha]
      simp
    refine ⟨rfl, ?_⟩
    rw [h1]
    exact h1
  · have h1 : canonicalizePair enc a b = (b, a) := by
      rw [canonicalizePair_eq enc a b ha hb hea heb, hgt]
      simp
    have h2 : canonicalizePair enc b a = (b, a) := by
      rw [canonicalizePair_eq enc b a hb ha heb hea, strLt_asymm hgt]
      simp
    refine ⟨by rw [h1, h2], ?_⟩
    rw [h1]
    exact h2

/-- Witness for claim C6 with the identity encoding on two concrete
tokens. -/
theorem canonicalizePair_symm_idem_witness :
    canonicalizePair idEnc tokB tokA = canonicalizePair idEnc tokA tokB ∧
    canonicalizePair idEnc (canonicalizePair idEnc tokB tokA).1
      (canonicalizePair idEnc tokB tokA).2 = canonicalizePair idEnc tokB tokA :=
  canonicalizePair_symm_idem idEnc
    (fun a b ha hb h1 h2 h3 => by
      simp only [idEnc, Option.some.injEq] at h1 h2
      rw [h1, h3, ← h2])
    tokB tokA (by simp [idEnc]) (by simp [idEnc])

/-! ## `addLiquidity` pre-flight theorems -/

/-- Claim C7: for a pool with zero total liquidity the pre-flight check
rejects with the too-small error exactly when `floor (sqrt (a0 * a1))` is
not strictly greater than the minimum liquidity threshold 1000; in
particular the deposit (900, 900) gives `sqrt 810000 = 900 ≤ 1000` and is
rejected. -/
theorem addLiquidityPreflight_initial :
    (∀ (pool : Pool) (a0 a1 : Nat), pool.liquidity = 0 →
      (addLiquidityPreflight pool a0 a1 = PreflightResult.tooSmall ↔
        ¬ 1000 < Nat.sqrt (a0 * a1))) ∧
    Nat.sqrt (900 * 900) = 900 ∧
    addLiquidityPreflight emptyPool 900 900 = PreflightResult.tooSmall := by
  have hsq : Nat.sqrt (900 * 900) = 900 := Nat.sqrt_eq 900
  have hmain : ∀ (pool : Pool) (a0 a1 : Nat), pool.liquidity = 0 →
      (addLiquidityPreflight pool a0 a1 = PreflightResult.tooSmall ↔
        ¬ 1000 < Nat.sqrt (a0 * a1)) := by
    intro pool a0 a1 h
    unfold addLiquidityPreflight
    simp only [h, gt_iff_lt, lt_irrefl, if_false]
    split_ifs with hs
    · simp only [true_iff]
      omega
    · constructor
      · intro hcon
        exact hcon.elim
      · intro hn
        exfalso
        omega
  refine ⟨hmain, hsq, ?_⟩
  refine (hmain emptyPool 900 900 rfl).mpr ?_
  rw [hsq]
  omega

/-- Witness for claim C7 applied at the concrete empty pool. -/
theorem addLiquidityPreflight_initial_witness :
    addLiquidityPreflight emptyPool 900 900 = PreflightResult.tooSmall ↔
      ¬ 1000 < Nat.sqrt (900 * 900) :=
  addLiquidityPreflight_initial.1 emptyPool 900 900 rfl

/-- Claim C10: `addLiquidity` fails with the zero-amount error whenever one
of the two amounts equals 0, regardless of the pool, the other amount and
the decimals lookups — in particular before any decimals lookup (which may
itself fail) or ratio check is performed. -/
theorem addLiquidity_zero_amount (pool : Pool) (amount0 amount1 : JSNumber)
    (dec0 dec1 : Except String ℚ)
    (h : amount0.isZero = true ∨ amount1.isZero = true) :
    addLiquidity pool amount0 amount1 dec0 dec1 = Except.error zeroAmountMsg := by
  unfold addLiquidity
  rcases h with h | h <;> simp [h]

/-- Witness for claim C10: a zero first amount is rejected even when both
decimals lookups fail. -/
theorem addLiquidity_zero_amount_witness :
    addLiquidity emptyPool zeroAmount oneAmount (Except.error netErrMsg)
      (Except.error netErrMsg) = Except.error zeroAmountMsg :=
  addLiquidity_zero_amount _ _ _ _ _ (Or.inl (by decide))

/-! ## Event scanner pagination theorems -/

theorem scanCollect_noFail (n : Nat) :
    ∀ (log : List RawEvent) (offset : Nat), log.length - offset ≤ n →
      scanCollect log noFail offset =
        (log.drop offset, (log.length - offset) / 50 + 1) := by
  induction n with
  | zero =>
    intro log offset h
    rw [scanCollect]
    have hlen : (log.drop offset).length = 0 := by
      rw [List.length_drop]
      omega
    have hnil : log.drop offset = [] := List.eq_nil_of_length_eq_zero hlen
    rw [hnil]
    simp [noFail]
    omega
  | succ n ih =>
    intro log offset h
    rw [scanCollect]
    simp only [noFail, Bool.false_eq_true, if_false]
    by_cases h50 : ((log.drop offset).take 50).length < 50
    · rw [dif_pos h50]
      have hs : (log.drop offset).length < 50 := by
        rw [List.length_take] at h50
        omega
      rw [List.take_of_length_le (le_of_lt hs)]
      have hd : log.length - offset < 50 := by
        rw [List.length_drop] at hs
        omega
      rw [Nat.div_eq_of_lt hd]
    · rw [dif_neg h50]
      have hge : 50 ≤ log.length - offset := by
        simp only [List.length_take, List.length_drop] at h50
        omega
      have hrec := ih log (offset + 50) (by omega)
      simp only [hrec]
      have e1 : log.drop (offset + 50) = (log.drop offset).drop 50 := by
        rw [List.drop_drop]
      rw [Prod.mk.injEq]
      constructor
      · rw [e1]
        exact List.take_append_drop 50 (log.drop offset)
      · omega

/-- Claim C8: the scanner pages through the log in windows of 50 from
offset 0 advancing by 50, issuing `length / 50 + 1` requests and collecting
the whole log when the transport never fails; on a 62-entry log (page 1 of
50 entries, page 2 of 12) it issues exactly 2 requests; a transport failure
stops the scan at that page. -/
theorem scanner_pagination :
    (∀ log : List RawEvent,
      scanCollect log noFail 0 = (log, log.length / 50 + 1)) ∧
    (scanCollect demoLog62 noFail 0).2 = 2 ∧
    scanCollect demoLog62 failAt0 0 = ([], 1) := by
  have hall : ∀ log : List RawEvent,
      scanCollect log noFail 0 = (log, log.length / 50 + 1) := by
    intro log
    have h := scanCollect_noFail log.length log 0 (by omega)
    simpa using h
  refine ⟨hall, ?_, ?_⟩
  · rw [hall demoLog62]
    have hlen : demoLog62.length = 62 := by
      unfold demoLog62
      simp
    rw [hlen]
  · rw [scanCollect]
    simp [failAt0]

/-! ## Reconciliation lemmas -/

theorem mapSet_mem {m : List (String × Pool)} {k : String} {v : Pool}
    {kv : String × Pool} (h : kv ∈ mapSet m k v) : kv ∈ m ∨ kv = (k, v) := by
  unfold mapSet at h
  split at h
  · obtain ⟨kv', hkv', heq⟩ := List.mem_map.mp h
    by_cases hk : (kv'.1 == k) = true
    · right
      rw [if_pos hk] at heq
      exact heq.symm
    · left
      rw [if_neg hk] at heq
      exact heq ▸ hkv'
  · rcases List.mem_append.mp h with h1 | h1
    · exact Or.inl h1
    · right
      simpa using h1

theorem mapSet_fst_nodup {m : List (String × Pool)} {k : String} {v : Pool}
    (h : (m.map Prod.fst).Nodup) : ((mapSet m k v).map Prod.fst).Nodup := by
  unfold mapSet
  split
  · have e : (m.map fun kv => if kv.1 == k then (k, v) else kv).map Prod.fst =
        m.map Prod.fst := by
      rw [List.map_map]
      apply List.map_congr_left
      intro kv _
      by_cases hk : (kv.1 == k) = true
      · simp only [Function.comp_apply, if_pos hk]
        exact (beq_iff_eq.mp hk).symm
      · simp only [Function.comp_apply, if_neg hk]
    rw [e]
    exact h
  · rename_i hany
    have hk : k ∉ m.map Prod.fst := by
      intro hmem
      obtain ⟨kv, hkv, hfst⟩ := List.mem_map.mp hmem
      exact hany (List.any_eq_true.mpr ⟨kv, hkv, by simp [hfst]⟩)
    rw [List.map_append]
    simp only [List.map_cons, List.map_nil]
    rw [List.nodup_append]
    refine ⟨h, List.nodup_singleton k, ?_⟩
    intro a ha hb
    simp only [List.mem_singleton] at hb
    exact hk (hb ▸ ha)

theorem mapGet_mem {m : List (String × Pool)} {k : String} {v : Pool}
    (h : mapGet m k = some v) : ∃ kv ∈ m, kv.2 = v := by
  unfold mapGet at h
  obtain ⟨kv, hfind, hv⟩ := Option.map_eq_some'.mp h
  exact ⟨kv, List.mem_of_find?_eq_some hfind, hv⟩

theorem dedupFold_invariant (S : List Pool) :
    ∀ (l : List Pool) (m : List (String × Pool)),
      (∀ p ∈ l, p ∈ S) →
      (m.map Prod.fst).Nodup →
      (∀ kv ∈ m, kv.1 = poolKeyStr kv.2 ∧ kv.2 ∈ S) →
      ((l.foldl dedupInsert m).map Prod.fst).Nodup ∧
      (∀ kv ∈ l.foldl dedupInsert m, kv.1 = poolKeyStr kv.2 ∧ kv.2 ∈ S) := by
  intro l
  induction l with
  | nil =>
    intro m _ h1 h2
    exact ⟨h1, h2⟩
  | cons p l ih =>
    intro m hl h1 h2
    simp only [List.foldl_cons]
    have hp : p ∈ S := hl p (List.mem_cons_self p l)
    apply ih
    · intro q hq
      exact hl q (List.mem_cons_of_mem p hq)
    · unfold dedupInsert
      split
      · exact mapSet_fst_nodup h1
      · split
        · exact mapSet_fst_nodup h1
        · exact h1
    · intro kv hkv
      unfold dedupInsert at hkv
      split at hkv
      · rcases mapSet_mem hkv with h | h
        · exact h2 kv h
        · rw [h]
          exact ⟨rfl, hp⟩
      · split at hkv
        · rcases mapSet_mem hkv with h | h
          · exact h2 kv h
          · rw [h]
            exact ⟨rfl, hp⟩
        · exact h2 kv hkv

theorem dedupStep_spec (S : List Pool) (l : List Pool) (hl : ∀ p ∈ l, p ∈ S) :
    ((dedupStep l).map poolKeyStr).Nodup ∧ ∀ q ∈ dedupStep l, q ∈ S := by
  obtain ⟨hnd, hprop⟩ := dedupFold_invariant S l [] hl (by simp) (by simp)
  constructor
  · unfold dedupStep
    rw [List.map_map]
    have e : (l.foldl dedupInsert []).map (poolKeyStr ∘ Prod.snd) =
        (l.foldl dedupInsert []).map Prod.fst := by
      apply List.map_congr_left
      intro kv hkv
      exact ((hprop kv hkv).1).symm
    rw [e]
    exact hnd
  · intro q hq
    unfold dedupStep at hq
    obtain ⟨kv, hkv, hsnd⟩ := List.mem_map.mp hq
    exact hsnd ▸ (hprop kv hkv).2

theorem dbpFold_mem (direct : List Pool) :
    ∀ (l : List Pool) (m : List (String × Pool)),
      (∀ kv ∈ m, kv.2 ∈ direct) → (∀ p ∈ l, p ∈ direct) →
      ∀ kv ∈ l.foldl (fun m dp => mapSet m (poolKeyStr dp) dp) m,
        kv.2 ∈ direct := by
  intro l
  induction l with
  | nil =>
    intro m hm _ kv hkv
    exact hm kv hkv
  | cons p l ih =>
    intro m hm hl kv hkv
    simp only [List.foldl_cons] at hkv
    refine ih (mapSet m (poolKeyStr p) p) ?_
      (fun q hq => hl q (List.mem_cons_of_mem p hq)) kv hkv
    intro kv' hkv'
    rcases mapSet_mem hkv' with h | h
    · exact hm kv' h
    · rw [h]
      exact hl p (List.mem_cons_self p l)

theorem mergeStep_mem {pools direct : List Pool} {q : Pool}
    (hq : q ∈ mergeStep pools direct) : q ∈ pools ∨ q ∈ direct := by
  unfold mergeStep at hq
  obtain ⟨p, hp, heq⟩ := List.mem_map.mp hq
  rcases hget : mapGet (direct.foldl (fun m dp => mapSet m (poolKeyStr dp) dp) [])
      (poolKeyStr p) with _ | dp
  · rw [hget] at heq
    simp only [] at heq
    left
    exact heq ▸ hp
  · rw [hget] at heq
    simp only [] at heq
    split at heq
    · right
      obtain ⟨kv, hkv, hsnd⟩ := mapGet_mem hget
      have hdp : dp ∈ direct :=
        hsnd ▸ dbpFold_mem direct direct [] (by simp) (fun r hr => hr) kv hkv
      exact heq ▸ hdp
    · left
      exact heq ▸ hp

theorem buildAuthoritative_some {env : Env} {t0 t1 : String} {fee : Nat}
    {p : Pool} (h : buildAuthoritative env t0 t1 fee = some p) :
    env.getPoolId t0 t1 fee = some p.id ∧
    p.token0 = t0 ∧ p.token1 = t1 ∧ p.fee = fee := by
  unfold buildAuthoritative at h
  obtain ⟨poolId, hid, hmap⟩ := Option.bind_eq_some.mp h
  obtain ⟨pd, hdata, hp⟩ := Option.map_eq_some'.mp hmap
  subst hp
  exact ⟨hid, rfl, rfl, rfl⟩

theorem resolvePoolByPair_some {env : Env} {t0In t1In : String} {fee : Nat}
    {p : Pool} (h : resolvePoolByPair env t0In t1In fee = some p) :
    ∃ a b, env.getPoolId a b fee = some p.id := by
  unfold resolvePoolByPair at h
  split at h
  · split at h
    · exact ⟨t1In, t0In, (buildAuthoritative_some h).1⟩
    · exact ⟨t0In, t1In, (buildAuthoritative_some h).1⟩
  · simp at h

theorem getAllPoolsDirect_hex {env : Env}
    (hhex : ∀ t0 t1 fee pid, env.getPoolId t0 t1 fee = some pid →
      isHexId pid = true)
    {q : Pool} (hq : q ∈ getAllPoolsDirect env) : isHexId q.id = true := by
  unfold getAllPoolsDirect at hq
  obtain ⟨pr, _, htry⟩ := List.mem_filterMap.mp hq
  unfold tryDirect at htry
  split at htry
  · obtain ⟨hid, _, _, _⟩ := buildAuthoritative_some htry
    exact hhex _ _ _ _ hid
  · simp at htry

theorem processCreate_fixOne {env : Env} (d : PayloadData)
    (hhex : ∀ t0 t1 fee pid, env.getPoolId t0 t1 fee = some pid →
      isHexId pid = true) :
    fixOne env (processCreate env d) = processCreate env d := by
  unfold processCreate
  rcases hba : buildAuthoritative env
      (canonicalizePair env.enc d.token0 d.token1).1
      (canonicalizePair env.enc d.token0 d.token1).2 d.fee with _ | pb
  · simp only [Option.orElse]
    rcases hres : resolvePoolByPair env
        (canonicalizePair env.enc d.token0 d.token1).1
        (canonicalizePair env.enc d.token0 d.token1).2 d.fee with _ | r
    · -- fallback kept: resolution failed here, so the fix-up pass (same
      -- deterministic oracle, same arguments) also keeps the record
      simp only [Option.getD_none]
      unfold fixOne
      split
      · rw [show (fallbackPool d
            (canonicalizePair env.enc d.token0 d.token1).1
            (canonicalizePair env.enc d.token0 d.token1).2).token0 =
            (canonicalizePair env.enc d.token0 d.token1).1 from rfl,
          show (fallbackPool d
            (canonicalizePair env.enc d.token0 d.token1).1
            (canonicalizePair env.enc d.token0 d.token1).2).token1 =
            (canonicalizePair env.enc d.token0 d.token1).2 from rfl,
          show (fallbackPool d
            (canonicalizePair env.enc d.token0 d.token1).1
            (canonicalizePair env.enc d.token0 d.token1).2).fee =
            d.fee from rfl,
          hres]
      · rfl
    · -- resolved record: hex id via the id-lookup hypothesis
      simp only [Option.getD_some]
      obtain ⟨a, b, hid⟩ := resolvePoolByPair_some hres
      simp [fixOne, hhex _ _ _ _ hid]
  · -- authoritative record: hex id via the id-lookup hypothesis
    simp only [Option.orElse, Option.getD_some]
    obtain ⟨hid, _, _, _⟩ := buildAuthoritative_some hba
    simp [fixOne, hhex _ _ _ _ hid]

theorem processEvent_fixOne {env : Env} {ev : RawEvent} {p : Pool}
    (hhex : ∀ t0 t1 fee pid, env.getPoolId t0 t1 fee = some pid →
      isHexId pid = true)
    (h : processEvent env ev = some p) : fixOne env p = p := by
  unfold processEvent at h
  split at h
  · split at h
    · simp at h
    · split at h
      · split at h
        · split at h
          · split at h
            · rw [Option.some.injEq] at h
              subst h
              exact processCreate_fixOne _ hhex
            · simp at h
          · simp at h
        · simp at h
      · simp at h
  · simp at h

theorem list_map_self {α : Type} {l : List α} {f : α → α}
    (h : ∀ a ∈ l, f a = a) : l.map f = l := by
  induction l with
  | nil => rfl
  | cons x xs ih =>
    simp only [List.map_cons]
    rw [h x (List.mem_cons_self x xs),
      ih (fun a ha => h a (List.mem_cons_of_mem x ha))]

/-- Claim C3 (amended): on the event path (at least one candidate decoded)
the discovery output contains at most one record per ordered key string
`token-0|token-1|fee`, provided every id returned by the ledger id-lookup is
a hex buffer id.  The stronger claim — at most one record per canonical
(unordered) pool key for every input mix — fails on the direct fallback
path, which probes both token orders (see the counterexample). -/
theorem getAllPools_eventPath_unique_keys (log : List RawEvent)
    (tfail : Nat → Bool) (env : Env)
    (hhex : ∀ t0 t1 fee pid, env.getPoolId t0 t1 fee = some pid →
      isHexId pid = true)
    (hne : (scanCollect log tfail 0).1.filterMap (processEvent env) ≠ []) :
    ((getAllPools log tfail env).map poolKeyStr).Nodup := by
  unfold getAllPools
  rw [if_neg (by simp [List.isEmpty_iff, hne])]
  have hspec := dedupStep_spec
    (mergeStep ((scanCollect log tfail 0).1.filterMap (processEvent env))
      (getAllPoolsDirect env))
    (mergeStep ((scanCollect log tfail 0).1.filterMap (processEvent env))
      (getAllPoolsDirect env))
    (fun p hp => hp)
  have hfix : ∀ q ∈ dedupStep
      (mergeStep ((scanCollect log tfail 0).1.filterMap (processEvent env))
        (getAllPoolsDirect env)), fixOne env q = q := by
    intro q hq
    rcases mergeStep_mem (hspec.2 q hq) with hqp | hqd
    · obtain ⟨ev, _, hpe⟩ := List.mem_filterMap.mp hqp
      exact processEvent_fixOne hhex hpe
    · have hhexid := getAllPoolsDirect_hex hhex hqd
      simp [fixOne, hhexid]
  rw [list_map_self hfix]
  exact hspec.1

/-- Witness for the amended claim C3: a one-event log processed against an
external state whose id lookups return the hex id `0xbeef`. -/
theorem getAllPools_eventPath_unique_keys_witness :
    ((getAllPools [evCreate] noFail (envData 1 2 3)).map poolKeyStr).Nodup := by
  apply getAllPools_eventPath_unique_keys
  · intro t0 t1 fee pid h
    have hpid : pid = beefId := by
      simpa [envData] using h.symm
    rw [hpid]
    decide
  · have hscan : scanCollect [evCreate] noFail 0 = ([evCreate], 1) := by
      rw [scanCollect]
      simp [noFail]
    rw [hscan]
    decide

set_option maxHeartbeats 2000000 in
/-- Claim C3 counterexample: with an empty event log (so discovery falls
back to the direct sweep) and a ledger reporting the first two known tokens
as an existing pool under both probe orders, `getAllPools` returns two
records with the same canonical pool key. -/
theorem getAllPools_duplicate_canonical_key :
    getAllPools [] noFail envDup = [dupPoolA, dupPoolB] ∧
    samePoolKey dupPoolA dupPoolB = true ∧ dupPoolA ≠ dupPoolB := by
  have hscan : scanCollect [] noFail 0 = ([], 1) := by
    rw [scanCollect]
    simp [noFail]
  refine ⟨?_, by decide, by decide⟩
  unfold getAllPools
  rw [hscan]
  decide

/-- Claim C4 (amended): the discovery run applies no reserve-consistency
validation and raises no error: for any liquidity and reserve values
reported by the authoritative read — including reserves zero on exactly one
side — the decoded record is returned unchanged. -/
theorem getAllPools_no_reserve_validation (liq b0 b1 : Nat) :
    getAllPools [evCreate] noFail (envData liq b0 b1) =
      [poolData liq b0 b1] := by
  have hscan : scanCollect [evCreate] noFail 0 = ([evCreate], 1) := by
    rw [scanCollect]
    simp [noFail]
  unfold getAllPools
  rw [hscan]
  rfl

/-- Claim C4 counterexample: a record decoded with `balance-0 = 0` and
`balance-1 = 5` (inconsistent reserves) appears unchanged in the returned
pool sequence; no `DecodeError` is raised — the discovery pipeline has no
error outcome at all. -/
theorem getAllPools_returns_inconsistent_reserves :
    getAllPools [evCreate] noFail (envData 50 0 5) = [poolData 50 0 5] ∧
    (poolData 50 0 5).balance0 = 0 ∧ (poolData 50 0 5).balance1 = 5 := by
  have hscan : scanCollect [evCreate] noFail 0 = ([evCreate], 1) := by
    rw [scanCollect]
    simp [noFail]
  refine ⟨?_, rfl, rfl⟩
  unfold getAllPools
  rw [hscan]
  rfl

end Dex
